import Mathlib

/-!
Shallow embedding of the operator-shell core of `src/supertel/task2/src/shell.c`
(with the framing consumed from the companion unix-socket client/server code).
Byte strings are modelled as `List Nat` (each element a byte value 0..255);
C strings are NUL-free byte lists, and the C-string semantics of `strncmp`,
`strtok`, `%s`/`%.*s` printing etc. are modelled explicitly.  Machine integers
use `Nat` with explicit `% 2 ^ w` at the points where the C code converts or
truncates.
-/

/-- Byte list of an ASCII string literal. -/
def bytes (s : String) : List Nat := s.toList.map Char.toNat

/-- Model of C `isdigit` on a byte. -/
def isdigitB (c : Nat) : Bool := decide (48 ≤ c ∧ c ≤ 57)

/-- Model of C `isspace` on a byte (space, \t, \n, \v, \f, \r). -/
def isspaceB (c : Nat) : Bool := decide (c = 32 ∨ (9 ≤ c ∧ c ≤ 13))

/-- C-string view of a byte buffer: the bytes up to the first NUL. -/
def cstr (l : List Nat) : List Nat := l.takeWhile (fun c => c != 0)

/-- Model of `strncmp(a, b, n) == 0` for the C strings stored in byte buffers
`a` and `b`: the comparison stops at the first NUL or after `n` bytes. -/
def strncmpEq (a b : List Nat) (n : Nat) : Bool :=
  decide ((cstr a).take n = (cstr b).take n)

/-- Decimal representation printed by `sprintf("%u", n)`
(most significant digit first; `0` prints as "0"). -/
def decRep (n : Nat) : List Nat :=
  if n = 0 then [48] else ((Nat.digits 10 n).map (fun d => d + 48)).reverse

/-- Value of the leading decimal digit run of a C string, as computed by
`atoi` at call sites whose argument starts with a digit (shell.c only calls
it on the slot digit run).  `atoi` goes through `strtol` (clamping at
`LONG_MAX` on 64-bit Linux) and the result is stored into an
`unsigned int` field, hence the final `% 2 ^ 32`. -/
def atoiDigitRun (l : List Nat) : Nat :=
  let v := Nat.ofDigits 10 (((l.takeWhile isdigitB).map (fun c => c - 48)).reverse)
  (if v ≥ 2 ^ 63 then 2 ^ 63 - 1 else v) % 2 ^ 32

/-- Result of `parse_unix_socket_name_`: borrowed name slice (start offset and
length inside the input) and the parsed slot number. -/
structure DriverDesc where
  nameStart : Nat
  nameLen : Nat
  slot : Nat
deriving DecidableEq, Repr

/-- Backward scan of `parse_unix_socket_name_`:
`while (back > 0 && name[back] != '/') --back;` starting from index `b`. -/
def backScanAux (name : List Nat) (b : Nat) : Nat :=
  match b with
  | 0 => 0
  | Nat.succ b' => if name.getD b 0 = 47 then b else backScanAux name b'

/-- Embedding of `parse_unix_socket_name_` (shell.c:165-202), parameterised by
the configured `SUFFIX` byte string (a header constant not present under
`src/`; the spec gives `drv` as the example value).  Mirrors the source scans:
the backward `/` scan, the forward scan to the first `.`, the digit run, the
final `.`+suffix length and `strncmp` checks, and `atoi` on the digit run. -/
def parse_unix_socket_name_ (suffix name : List Nat) : Option DriverDesc :=
  let len := name.length
  let nameStart := backScanAux name (len - 1)
  let nameEnd := nameStart + ((name.drop nameStart).takeWhile (fun c => c != 46)).length
  if nameEnd = nameStart ∨ nameEnd = len then none
  else
    let slotStart := nameEnd + 1
    let slotEnd := slotStart +
      ((name.drop slotStart).takeWhile (fun c => c != 46 && isdigitB c)).length
    if slotEnd = slotStart ∨ slotEnd = len ∨ (name.drop slotEnd).headD 0 ≠ 46 then none
    else if len - slotEnd ≠ suffix.length + 1 then none
    else if ¬ strncmpEq (name.drop (slotEnd + 1)) suffix suffix.length then none
    else some ⟨nameStart, nameEnd - nameStart, atoiDigitRun (name.drop slotStart)⟩

/-- Name slice a `DriverDesc` borrows from the parsed input. -/
def ddNameSlice (name : List Nat) (dd : DriverDesc) : List Nat :=
  (name.drop dd.nameStart).take dd.nameLen

/-- Modelled from the spec: the endpoint filename grammar
`<driver-name>.<slot>.<SUFFIX>` (spec section 6); the formatter itself lives on
the driver side, outside this repository. -/
def formatSocketName (name : List Nat) (slot : Nat) (suffix : List Nat) : List Nat :=
  name ++ 46 :: decRep slot ++ 46 :: suffix

/-- Configured suffix used for concrete evaluations (spec example value). -/
def drvSuffix : List Nat := bytes ("drv")

/-! ### Wire protocol constants and frame codec

The `protocol.h` header is not under `src/`; the frame layouts below are
modelled from the spec (section 4.C): packed fields, host (little-endian)
byte order, and three distinct one-byte signature values. -/

/-- Modelled from the spec: the `DRV_COMMAND` signature byte (value opaque;
the three signatures are distinct compile-time constants). -/
def PR_DRV_COMMAND : Nat := 0

/-- Modelled from the spec: the `DRV_INFO` signature byte. -/
def PR_DRV_INFO : Nat := 1

/-- Modelled from the spec: the `DRV_RESPONSE` signature byte. -/
def PR_DRV_RESPONSE : Nat := 2

/-- Little-endian 4-byte encoding of a `u32` field. -/
def u32le (n : Nat) : List Nat :=
  [n % 256, n / 256 % 256, n / 65536 % 256, n / 16777216 % 256]

/-- Host-order read of the `u32` at the head of a byte list. -/
def readU32LE (l : List Nat) : Nat :=
  match l with
  | b0 :: b1 :: b2 :: b3 :: _ => b0 + 256 * b1 + 65536 * b2 + 16777216 * b3
  | _ => 0

/-! ### Registry (driver records keyed by the 8-bit Pearson hash)

The AVL tree `sh->clients` maps a hash to a bucket (`list_t` of
`shell_driver_t`).  The hash function and the AVL/list containers are external
collaborators (spec section 1), so the registry is modelled as an association
list from hash values to buckets, parameterised over an opaque hash
function. -/

/-- Embedding of `shell_driver_command_t`: a catalog entry as stored after
`reader_info` (name bytes NUL-terminated within 32, description within 128,
`arity` a `uint8_t`). -/
structure ShellDriverCmd where
  name : List Nat
  arity : Nat
  descr : List Nat
deriving DecidableEq, Repr

/-- Embedding of `shell_driver_t`: owned name copy (`name_len = name.length`,
NUL-free), slot number and command catalog. -/
structure ShellDriver where
  name : List Nat
  slot : Nat
  commands : List ShellDriverCmd
deriving DecidableEq, Repr

/-- The registry: hash value to collision bucket, in tree order. -/
abbrev Registry := List (Nat × List ShellDriver)

/-- Embedding of the `DRIVER_SLOT_ID` macro:
`sprintf(ID, "%.*s%u", name_len, name, slot)`. -/
def driverId (name : List Nat) (slot : Nat) : List Nat := name ++ decRep slot

/-- Claim-level membership: some bucket of the registry holds a record with
exactly this `(name, slot)` identity. -/
def registryHasDriver (reg : Registry) (drv : List Nat) (slot : Nat) : Prop :=
  ∃ p ∈ reg, ∃ sd ∈ p.2, sd.name = drv ∧ sd.slot = slot

/-- Well-formedness the program maintains: bucket keys are distinct (AVL
keys), every record sits in the bucket keyed by the hash of its
`DRIVER_SLOT_ID`, and record names are NUL-free C strings. -/
def registryWF (hash : List Nat → Nat) (reg : Registry) : Prop :=
  (reg.map Prod.fst).Nodup ∧
    ∀ p ∈ reg, ∀ sd ∈ p.2, hash (driverId sd.name sd.slot) = p.1 ∧ (0 : Nat) ∉ sd.name

/-- Bucket scan of `cmd_cmd` (shell.c:345-354): match on equal `name_len`,
`strncmp(sd->name, drv, drv_len) == 0` and equal slot. -/
def bucketFind (bucket : List ShellDriver) (drv : List Nat) (slot : Nat) :
    Option ShellDriver :=
  bucket.find? (fun sd =>
    sd.name.length == drv.length && strncmpEq sd.name drv drv.length && sd.slot == slot)

/-- Driver resolution of `cmd_cmd`: Pearson hash of `DRIVER_SLOT_ID`, AVL
lookup (`avl_tree_get`), then the bucket scan. -/
def driverLookup (hash : List Nat → Nat) (reg : Registry) (drv : List Nat)
    (slot : Nat) : Option ShellDriver :=
  match List.lookup (hash (driverId drv slot)) reg with
  | none => none
  | some bucket => bucketFind bucket drv slot

/-- Catalog scan of `cmd_cmd` (shell.c:365-372): first index whose stored name
satisfies `strncmp(sdc->name, cmd, MAX_COMMAND_NAME_LEN) == 0`
(`MAX_COMMAND_NAME_LEN = 32` per the spec command-descriptor bound). -/
def catalogFind (cmds : List ShellDriverCmd) (c : List Nat) :
    Option (Nat × ShellDriverCmd) :=
  match cmds with
  | [] => none
  | sdc :: rest =>
      if strncmpEq sdc.name c 32 then some (0, sdc)
      else (catalogFind rest c).map (fun p => (p.1 + 1, p.2))

/-- Embedding of `arg_from_input_t`: borrowed argument bytes plus the stored
`uint8_t` length. -/
structure ArgFromInput where
  arg : List Nat
  len : Nat
deriving DecidableEq, Repr

/-- The command frame `cmd_cmd` serialises into its buffer (shell.c:390-413):
`pr_driver_command_t` header (signature, `cmd_idx` as `u16`, `argc` as `u8`),
then per argument the `u8` length followed by `len` copied bytes.  The `% 256`
and `% 65536` mirror the stores into the fixed-width struct fields. -/
def buildCommandFrame (idx : Nat) (args : List ArgFromInput) : List Nat :=
  PR_DRV_COMMAND :: (idx % 256) :: (idx / 256 % 256) :: (args.length % 256) ::
    args.flatMap (fun a => (a.len % 256) :: a.arg.take a.len)

/-- Result of `cmd_cmd`: either the `cmd_invalid` path (prints
"Invalid command" and performs no socket write) or the frame handed to
`unix_socket_client_send`. -/
inductive CmdResult where
  | invalid
  | sent (frame : List Nat)
deriving DecidableEq, Repr

/-- Embedding of `cmd_cmd` (shell.c:313-421): resolve the driver, scan the
catalog, reject when the catalog entry is missing or
`cmd_arity < vector_count(args)`, otherwise build and send the frame. -/
def cmd_cmd (hash : List Nat → Nat) (reg : Registry) (drv : List Nat)
    (slot : Nat) (c : List Nat) (args : List ArgFromInput) : CmdResult :=
  match driverLookup hash reg drv slot with
  | none => .invalid
  | some sd =>
      match catalogFind sd.commands c with
      | none => .invalid
      | some (idx, sdc) =>
          if sdc.arity < args.length then .invalid
          else .sent (buildCommandFrame idx args)

/-- Modelled from the spec: the driver-side parser of a Command frame
(layout `signature | cmd_idx : u16 | argc : u8 | (len : u8, bytes) × argc`,
spec section 4.C); the consuming code is outside this repository.
`parseArgsFrame argc rest` decodes the argument section. -/
def parseArgsFrame : Nat → List Nat → Option (List (List Nat))
  | 0, [] => some []
  | 0, _ :: _ => none
  | _ + 1, [] => none
  | k + 1, lenB :: rest =>
      if rest.length < lenB then none
      else (parseArgsFrame k (rest.drop lenB)).map (fun l => rest.take lenB :: l)

/-- Modelled from the spec: full Command-frame parser (see `parseArgsFrame`). -/
def parseCommandFrame (f : List Nat) : Option (Nat × List (List Nat)) :=
  match f with
  | s :: i0 :: i1 :: ac :: rest =>
      if s = PR_DRV_COMMAND then
        (parseArgsFrame ac rest).map (fun l => (i0 + 256 * i1, l))
      else none
  | _ => none

/-! ### Directory supervisor: CREATED events -/

/-- Outcome of `base_dir_smth_created`: entry ignored (not a socket or name
does not parse), fatal abort (`Duplicate driver`), or the updated registry. -/
inductive CreatedResult where
  | ignored
  | fatal
  | ok (reg : Registry)
deriving DecidableEq, Repr

/-- Bucket insertion performed by `avl_tree_add_or_get` plus `list_append`:
append the record at the end of the bucket for key `h`, creating the bucket
when absent. -/
def insertRecord (reg : Registry) (h : Nat) (sd : ShellDriver) : Registry :=
  match reg with
  | [] => [(h, [sd])]
  | (k, b) :: rest =>
      if k = h then (k, b ++ [sd]) :: rest else (k, b) :: insertRecord rest h sd

/-- Embedding of `base_dir_smth_created` (shell.c:763-839) for an entry that
passed the `check_unix_socket` stat (the stat itself is an external syscall):
parse the name, hash the `DRIVER_SLOT_ID`, scan the bucket with
`strncmp(sd->name, dd.driver_name, name_len)` — note the third argument is
the full event-name length — abort on a match, otherwise append a fresh
record (its catalog is empty until a `DRV_INFO` frame arrives). -/
def base_dir_smth_created (hash : List Nat → Nat) (suffix : List Nat)
    (reg : Registry) (name : List Nat) : CreatedResult :=
  match parse_unix_socket_name_ suffix name with
  | none => .ignored
  | some dd =>
      let drvName := ddNameSlice name dd
      let h := hash (driverId drvName dd.slot)
      let bucket := (List.lookup h reg).getD []
      if bucket.any (fun sd =>
          sd.name.length == dd.nameLen &&
          strncmpEq sd.name (name.drop dd.nameStart) name.length &&
          sd.slot == dd.slot)
      then .fatal
      else .ok (insertRecord reg h ⟨drvName, dd.slot, []⟩)

/-! ### Client read/write completion handlers -/

/-- Early-return outcomes of the `READ_ERROR_HANDLER` macro
(shell.c:604-625): on a nonzero `error` it attempts
`unix_socket_client_reconnect` and returns; on `usc->eof` it only logs
("Possibly a delete will take place soon") and returns. -/
inductive ReadGate where
  | reconnect
  | eofWait
deriving DecidableEq, Repr

/-- Embedding of the `READ_ERROR_HANDLER` macro: `error` is checked first,
then `eof`; `none` means the reader proceeds with its payload. -/
def read_error_handler (error : Nat) (eof : Bool) : Option ReadGate :=
  if error ≠ 0 then some .reconnect else if eof then some .eofWait else none

/-- Action taken by `reader_signature` (shell.c:687-720). -/
inductive SigAction where
  | gate (g : ReadGate)
  | recvInfoRest
  | recvRespRest
  | badSigReconnect
deriving DecidableEq, Repr

/-- Embedding of `reader_signature`: run the error handler, then switch on the
signature byte; `DRV_INFO`/`DRV_RESPONSE` arm the matching header read, any
other value reconnects. -/
def reader_signature (error : Nat) (eof : Bool) (sig : Nat) : SigAction :=
  match read_error_handler error eof with
  | some g => .gate g
  | none =>
      if sig = PR_DRV_INFO then .recvInfoRest
      else if sig = PR_DRV_RESPONSE then .recvRespRest
      else .badSigReconnect

/-- The prompt `finish_cmd` prints. -/
def PROMPT : List Nat := bytes ("> ")

/-- Output of `finish_cmd` (shell.c:423-425). -/
def finish_cmd_output : List Nat := PROMPT

/-- Bytes printed by `fprintf(out, "%.*s", n, s)`: at most `n` bytes and never
past a NUL.  A length field of `2^31` or more reaches `%.*s` as a negative
`int` precision, which makes `printf` ignore the precision and print the whole
C string. -/
def dotStarOut (n : Nat) (s : List Nat) : List Nat :=
  if n < 2 ^ 31 then (cstr s).take n else cstr s

/-- Action taken by `reader_response` (shell.c:664-685). -/
inductive RespAction where
  | gate (g : ReadGate)
  | rearm (deficit : Nat)
  | printed (out : List Nat)
deriving DecidableEq, Repr

/-- Embedding of `reader_response` on its accumulated read buffer `b`
(response header `pr_driver_response_t` is `signature : u8 | length : u32`,
modelled packed from the spec, so the payload starts at offset 5): run the
error handler, reissue a read for the deficit while the frame is incomplete,
otherwise print `"%.*s"` of the payload, a newline and the prompt. -/
def reader_response (error : Nat) (eof : Bool) (b : List Nat) : RespAction :=
  match read_error_handler error eof with
  | some g => .gate g
  | none =>
      let len := readU32LE (b.drop 1)
      let required := 5 + len
      if b.length < required then .rearm (required - b.length)
      else .printed (dotStarOut len (b.drop 5) ++ bytes ("\n") ++ finish_cmd_output)

/-! ### Shell output text -/

/-- The `INVALID_MSG` string constant. -/
def INVALID_MSG : List Nat := bytes ("Invalid command\n")

/-- The `HELP_MSG` string constant (adjacent C literals concatenated). -/
def HELP_MSG : List Nat :=
  bytes ("Commands:\nlist --- list all drivers\nhelp --- print this message\ncmd drv slot drv_cmd ... --- send command drv_cmd to driver drv at slot with arguments\n")

/-- Output of `cmd_invalid` (shell.c:308-311). -/
def cmd_invalid_output : List Nat := INVALID_MSG ++ finish_cmd_output

/-- Output of `cmd_help` (shell.c:303-306). -/
def cmd_help_output : List Nat := HELP_MSG ++ finish_cmd_output

/-- Block `print_drv` prints for one driver record (shell.c:274-295):
newline, `Driver: <name>`, `Slot: <slot>`, then one line per catalog entry;
`%s` fields stop at the first NUL of the stored arrays. -/
def printDriverBlock (sd : ShellDriver) : List Nat :=
  bytes ("\n") ++ bytes ("Driver: ") ++ dotStarOut sd.name.length sd.name ++ bytes ("\n") ++
    bytes ("Slot: ") ++ decRep sd.slot ++ bytes ("\n") ++
    sd.commands.flatMap (fun sdc =>
      cstr sdc.name ++ bytes (" <arity: ") ++ decRep sdc.arity ++ bytes ("> --- ") ++
        cstr sdc.descr ++ bytes ("\n"))

/-- Output of the `print_drv` traversal over the whole registry (the AVL
traversal order is unspecified per the spec; the model uses bucket order). -/
def listOutput (reg : Registry) : List Nat :=
  reg.flatMap (fun p => p.2.flatMap printDriverBlock)

/-- Output of `cmd_list` (shell.c:298-301). -/
def cmd_list_output (reg : Registry) : List Nat := listOutput reg ++ finish_cmd_output

/-- Bytes `writer` (shell.c:579-602) prints on the output channel: on a send
error it reconnects and, only when the reconnect succeeds, prints the prompt;
a failed reconnect and the success path print nothing (the success path arms
the signature read instead). -/
def writer_output (error : Nat) (reconnectOk : Bool) : List Nat :=
  if error ≠ 0 then (if reconnectOk then PROMPT else []) else []

/-- The ways a user command can complete, with the handler that finishes it:
the three immediate verbs, a full `DRV_RESPONSE`, and the disconnect paths of
`writer` / `READ_ERROR_HANDLER` / `reader_signature`. -/
inductive CmdCompletion where
  | immediateList (reg : Registry)
  | immediateHelp
  | rejectedInput
  | responseArrived (len : Nat) (payload : List Nat)
  | writeError (reconnectOk : Bool)
  | readError
  | readEof
  | invalidSignature (sig : Nat)
deriving DecidableEq, Repr

/-- Output-channel bytes of each completion path, read off the corresponding
handler (the read-side failure paths perform no `fprintf(sh->output, ...)`). -/
def completionOutput : CmdCompletion → List Nat
  | .immediateList reg => cmd_list_output reg
  | .immediateHelp => cmd_help_output
  | .rejectedInput => cmd_invalid_output
  | .responseArrived len payload =>
      dotStarOut len payload ++ bytes ("\n") ++ finish_cmd_output
  | .writeError reconnectOk => writer_output 1 reconnectOk
  | .readError => []
  | .readEof => []
  | .invalidSignature _ => []

/-! ### Input line handling -/

/-- Accumulator recursion for `tokenize`: `cur` holds the bytes of the token
being scanned, in reverse. -/
def tokenizeAux (cur : List Nat) : List Nat → List (List Nat)
  | [] => if cur.isEmpty then [] else [cur.reverse]
  | c :: rest =>
      if c = 32 then
        (if cur.isEmpty then tokenizeAux [] rest else cur.reverse :: tokenizeAux [] rest)
      else tokenizeAux (c :: cur) rest

/-- Tokenisation performed by the successive `strtok(_, " ")` calls in
`run_command_from_input`: delimiter runs are skipped and each token is a
maximal run of non-space bytes. -/
def tokenize (l : List Nat) : List (List Nat) := tokenizeAux [] l

/-- Model of `strtoul(slot, &slot_endptr, 10)` followed by the
`*slot_endptr != '\0'` check and the store into `unsigned int slot_number`:
optional whitespace and sign, a digit run that must end the token, clamping
at `ULONG_MAX` on overflow, two-complement negation for `-`, then `% 2^32`. -/
def parseSlotTok (t : List Nat) : Option Nat :=
  let afterWs := t.dropWhile isspaceB
  let signRest : Bool × List Nat :=
    match afterWs with
    | 45 :: r => (true, r)
    | 43 :: r => (false, r)
    | _ => (false, afterWs)
  let ds := signRest.2.takeWhile isdigitB
  if ds.isEmpty then (if t.isEmpty then some 0 else none)
  else if (signRest.2.drop ds.length).isEmpty then
    let v0 := Nat.ofDigits 10 ((ds.map (fun c => c - 48)).reverse)
    let v1 := if v0 ≥ 2 ^ 64 then 2 ^ 64 - 1 else v0
    let v2 := if signRest.1 then (2 ^ 64 - v1) % 2 ^ 64 else v1
    some (v2 % 2 ^ 32)
  else none

/-- Argument collection loop of `run_command_from_input` (shell.c:495-513):
reject any token longer than 255 bytes, otherwise store `{arg, len}`. -/
def collectArgs : List (List Nat) → Option (List ArgFromInput)
  | [] => some []
  | t :: rest =>
      if t.length > 255 then none
      else (collectArgs rest).map (fun l => ⟨t, t.length⟩ :: l)

/-- Structured outcome of `run_command_from_input`: the `cmd_invalid` path,
the two immediate verbs, or a `cmd_cmd` dispatch with the parsed pieces. -/
inductive InputAction where
  | invalid
  | listCmd
  | helpCmd
  | dispatch (drv : List Nat) (slot : Nat) (c : List Nat) (args : List ArgFromInput)
deriving DecidableEq, Repr

/-- Verb selection and validation of `run_command_from_input`
(shell.c:441-520) over the token list. -/
def run_command_tokens : List (List Nat) → InputAction
  | [] => .invalid
  | c :: rest =>
      if c = bytes ("list") then .listCmd
      else if c = bytes ("help") then .helpCmd
      else if c = bytes ("cmd") then
        match rest with
        | drv :: slotTok :: dcmd :: args =>
            match parseSlotTok slotTok with
            | none => .invalid
            | some n =>
                match collectArgs args with
                | none => .invalid
                | some afis => .dispatch drv n dcmd afis
        | _ => .invalid
      else .invalid

/-- Embedding of `run_command_from_input` on the bytes of one complete line
(the newline at `offset` is overwritten with NUL, so `strtok` sees the bytes
up to the first NUL). -/
def run_command_from_input (line : List Nat) : InputAction :=
  run_command_tokens (tokenize (line.takeWhile (fun c => c != 0)))

/-- EOF test of `on_input` (shell.c:547-550): the reactor is stopped exactly
when `ioctl(FIONREAD)` reports zero pending bytes. -/
def on_input_stops (pending : Nat) : Bool := pending == 0

/-! ### Concrete fixtures for evaluated instances

The Pearson hash is an external collaborator; `hash0` is one admissible hash
function used to evaluate the registry operations on concrete inputs. -/

/-- A concrete hash function for evaluation (the code is parametric in it). -/
def hash0 : List Nat → Nat := fun _ => 0

/-- Record created for endpoint `a.1.drv`. -/
def sdA : ShellDriver := ⟨bytes ("a"), 1, []⟩

/-- A catalog entry named `c` with arity 2. -/
def wcmd : ShellDriverCmd := ⟨bytes ("c"), 2, bytes ("x")⟩

/-- A registered driver `d` at slot 1 with catalog `[wcmd]`. -/
def wdrv : ShellDriver := ⟨bytes ("d"), 1, [wcmd]⟩

/-- A one-driver registry under `hash0`. -/
def wreg : Registry := [(0, [wdrv])]

/-- A concrete parsed argument. -/
def warg : ArgFromInput := ⟨bytes ("hi"), 2⟩

/-- A 255-byte argument token. -/
def longA : List Nat := List.replicate 255 97

/-- A 256-byte argument token. -/
def longB : List Nat := List.replicate 256 97


/-! ## Helper lemmas -/

theorem takeWhile_all {p : Nat → Bool} {l : List Nat} (h : ∀ c ∈ l, p c = true) :
    l.takeWhile p = l := by
  induction l with
  | nil => rfl
  | cons c t ih =>
      rw [List.takeWhile_cons_of_pos (h c (List.mem_cons_self c t))]
      rw [ih (fun x hx => h x (List.mem_cons_of_mem c hx))]

theorem takeWhile_to_sep {p : Nat → Bool} {a : List Nat} {x : Nat} {r : List Nat}
    (ha : ∀ c ∈ a, p c = true) (hx : p x = false) :
    (a ++ x :: r).takeWhile p = a := by
  induction a with
  | nil => simp [List.takeWhile_cons, hx]
  | cons c t ih =>
      have hc : p c = true := ha c (List.mem_cons_self c t)
      simp only [List.cons_append, List.takeWhile_cons_of_pos hc]
      rw [ih (fun y hy => ha y (List.mem_cons_of_mem c hy))]

theorem getD_ne_of_not_mem {l : List Nat} (h : (47 : Nat) ∉ l) (b : Nat) :
    l.getD b 0 ≠ 47 := by
  induction l generalizing b with
  | nil => simp [List.getD]
  | cons c t ih =>
      cases b with
      | zero =>
          simp only [List.getD_cons_zero]
          exact fun hc => h (hc ▸ List.mem_cons_self c t)
      | succ b =>
          simp only [List.getD_cons_succ]
          exact ih (fun hm => h (List.mem_cons_of_mem c hm)) b

theorem backScanAux_eq_zero {l : List Nat} (h : (47 : Nat) ∉ l) (b : Nat) :
    backScanAux l b = 0 := by
  induction b with
  | zero => rfl
  | succ b ih =>
      rw [backScanAux, if_neg (getD_ne_of_not_mem h (b + 1))]
      exact ih

theorem mem_decRep {n c : Nat} (h : c ∈ decRep n) : 48 ≤ c ∧ c ≤ 57 := by
  by_cases h0 : n = 0
  · subst h0
    simp [decRep] at h
    omega
  · simp only [decRep, if_neg h0, List.mem_reverse, List.mem_map] at h
    obtain ⟨d, hd, rfl⟩ := h
    have := Nat.digits_lt_base (by norm_num) hd
    omega

theorem decRep_ne_nil (n : Nat) : decRep n ≠ [] := by
  by_cases h0 : n = 0
  · subst h0; simp [decRep]
  · simp [decRep, h0, Nat.digits_ne_nil_iff_ne_zero]

theorem atoiRun_decRep {slot : Nat} (h : slot < 2 ^ 32) (rest : List Nat) :
    atoiDigitRun (decRep slot ++ 46 :: rest) = slot := by
  have htw : (decRep slot ++ 46 :: rest).takeWhile isdigitB = decRep slot :=
    takeWhile_to_sep
      (fun c hc => by
        have := mem_decRep hc
        simp only [isdigitB, decide_eq_true_eq]
        omega)
      (by simp [isdigitB])
  have hv : Nat.ofDigits 10 (((decRep slot).map (fun c => c - 48)).reverse) = slot := by
    by_cases h0 : slot = 0
    · subst h0; simp [decRep, Nat.ofDigits]
    · simp only [decRep, if_neg h0, List.map_reverse, List.reverse_reverse]
      rw [List.map_map]
      have : ((fun c => c - 48) ∘ fun d => d + 48) = id := by
        funext d; simp
      rw [this, List.map_id, Nat.ofDigits_digits]
  simp only [atoiDigitRun, htw, hv]
  rw [if_neg (by omega)]
  exact Nat.mod_eq_of_lt h

theorem cstr_eq_self {l : List Nat} (h : (0 : Nat) ∉ l) : cstr l = l :=
  takeWhile_all (fun c hc => by
    simp only [bne_iff_ne, ne_eq]
    exact fun h0 => h (h0 ▸ hc))

theorem strncmpEq_self (a : List Nat) (n : Nat) : strncmpEq a a n = true := by
  simp [strncmpEq]

theorem strncmpEq_eq {a b : List Nat} (ha : (0 : Nat) ∉ a) (hb : (0 : Nat) ∉ b)
    (hl : a.length = b.length) (h : strncmpEq a b b.length = true) : a = b := by
  simp only [strncmpEq, decide_eq_true_eq] at h
  rw [cstr_eq_self ha, cstr_eq_self hb] at h
  have h1 : a.take b.length = a := by rw [← hl]; exact List.take_length a
  have h2 : b.take b.length = b := List.take_length b
  rwa [h1, h2] at h

theorem lookup_mem {reg : Registry} {h : Nat} {b : List ShellDriver}
    (hl : List.lookup h reg = some b) : (h, b) ∈ reg := by
  induction reg with
  | nil => simp [List.lookup] at hl
  | cons p t ih =>
      rcases p with ⟨k, v⟩
      by_cases hk : h = k
      · subst hk
        have hbeq : (h == h) = true := beq_self_eq_true h
        simp only [List.lookup, hbeq] at hl
        cases hl
        exact List.mem_cons_self _ _
      · have hbeq : (h == k) = false := by simp [hk]
        simp only [List.lookup, hbeq] at hl
        exact List.mem_cons_of_mem _ (ih hl)

theorem mem_lookup {reg : Registry} {h : Nat} {b : List ShellDriver}
    (nd : (reg.map Prod.fst).Nodup) (hm : (h, b) ∈ reg) :
    List.lookup h reg = some b := by
  induction reg with
  | nil => simp at hm
  | cons p t ih =>
      rcases p with ⟨k, v⟩
      simp only [List.map_cons, List.nodup_cons] at nd
      rcases List.mem_cons.mp hm with heq | ht
      · cases heq
        simp [List.lookup]
      · have hk : h ≠ k := by
          rintro rfl
          exact nd.1 (List.mem_map.mpr ⟨(h, b), ht, rfl⟩)
        have hbeq : (h == k) = false := by simp [hk]
        simp only [List.lookup, hbeq]
        exact ih nd.2 ht

/-! ## Claim theorems -/

/-- C4: for every non-empty driver name free of `.` and `/`, and every
`unsigned int` slot, parsing the formatted filename
`<name>.<slot>.<SUFFIX>` succeeds and returns exactly that `(name, slot)`
pair (name slice at offset 0 with the right length, and the same slot). -/
theorem format_parse_roundtrip (name suffix : List Nat) (slot : Nat)
    (h1 : name ≠ []) (h2 : (46 : Nat) ∉ name) (h3 : (47 : Nat) ∉ name)
    (h4 : (47 : Nat) ∉ suffix) (h5 : slot < 2 ^ 32) :
    parse_unix_socket_name_ suffix (formatSocketName name slot suffix)
      = some ⟨0, name.length, slot⟩
    ∧ (formatSocketName name slot suffix).take name.length = name := by
  have hd : 0 < (decRep slot).length := List.length_pos.mpr (decRep_ne_nil slot)
  have hn : 0 < name.length := List.length_pos.mpr h1
  have hfmt2 : formatSocketName name slot suffix
      = name ++ 46 :: (decRep slot ++ 46 :: suffix) := by
    simp [formatSocketName]
  have hno47 : (47 : Nat) ∉ formatSocketName name slot suffix := by
    rw [hfmt2]
    intro hm
    rcases List.mem_append.mp hm with hmn | hmr
    · exact h3 hmn
    · rcases List.mem_cons.mp hmr with he | hmr2
      · omega
      · rcases List.mem_append.mp hmr2 with hmd | hms
        · have := mem_decRep hmd; omega
        · rcases List.mem_cons.mp hms with he | hs
          · omega
          · exact h4 hs
  have hback : backScanAux (formatSocketName name slot suffix)
      ((formatSocketName name slot suffix).length - 1) = 0 :=
    backScanAux_eq_zero hno47 _
  have hlen : (formatSocketName name slot suffix).length
      = name.length + 1 + (decRep slot).length + 1 + suffix.length := by
    rw [hfmt2]; simp; omega
  have htw1 : ((formatSocketName name slot suffix).drop 0).takeWhile (fun c => c != 46)
      = name := by
    rw [List.drop_zero, hfmt2]
    exact takeWhile_to_sep
      (fun c hc => by
        simp only [bne_iff_ne, ne_eq]
        exact fun he => h2 (he ▸ hc))
      (by simp)
  have hdropA : (formatSocketName name slot suffix).drop (name.length + 1)
      = decRep slot ++ 46 :: suffix := by
    rw [hfmt2]
    rw [show name ++ 46 :: (decRep slot ++ 46 :: suffix)
        = (name ++ [46]) ++ (decRep slot ++ 46 :: suffix) by simp]
    rw [show name.length + 1 = (name ++ [46]).length by simp]
    exact List.drop_left _ _
  have hdropB : (formatSocketName name slot suffix).drop
      (name.length + 1 + (decRep slot).length) = 46 :: suffix := by
    rw [← List.drop_drop, hdropA, List.drop_left]
  have hdropC : (formatSocketName name slot suffix).drop
      (name.length + 1 + (decRep slot).length + 1) = suffix := by
    rw [← List.drop_drop, hdropB]
    rfl
  have htw2 : (decRep slot ++ 46 :: suffix).takeWhile (fun c => c != 46 && isdigitB c)
      = decRep slot :=
    takeWhile_to_sep
      (fun c hc => by
        have := mem_decRep hc
        simp only [Bool.and_eq_true, bne_iff_ne, ne_eq, isdigitB, decide_eq_true_eq]
        omega)
      (by simp)
  constructor
  · simp only [parse_unix_socket_name_]
    rw [hback, htw1]
    simp only [Nat.zero_add]
    rw [if_neg (by rw [hlen]; omega)]
    rw [hdropA, htw2]
    rw [hdropB]
    simp only [List.headD_cons]
    rw [if_neg (by rw [hlen]; omega)]
    rw [if_neg (by rw [hlen]; omega)]
    rw [hdropC, strncmpEq_self]
    rw [if_neg (by simp)]
    rw [atoiRun_decRep h5]
    simp
  · rw [hfmt2]
    exact List.take_left name _

/-- C4 witness: the round-trip evaluated at `(thermo, 3)` with suffix `drv`. -/
theorem format_parse_roundtrip_witness :
    parse_unix_socket_name_ drvSuffix (formatSocketName (bytes ("thermo")) 3 drvSuffix)
      = some ⟨0, (bytes ("thermo")).length, 3⟩
    ∧ (formatSocketName (bytes ("thermo")) 3 drvSuffix).take (bytes ("thermo")).length
      = bytes ("thermo") :=
  format_parse_roundtrip (bytes ("thermo")) drvSuffix 3
    (by decide) (by decide) (by decide) (by decide) (by decide)

/-- C5: the parser does not strip the last `/` itself: on `dir/a.1.drv` the
returned name slice starts at offset 3 (the `/`) with length 2, i.e. `/a`,
not at offset 4 with the slice `a` that parsing `a.1.drv` alone yields; and
`dir/.1.drv`, whose remainder after the slash has an empty name part, is
accepted with name slice `/`. -/
theorem parse_name_keeps_last_slash :
    parse_unix_socket_name_ drvSuffix (bytes ("dir/a.1.drv")) = some ⟨3, 2, 1⟩
    ∧ ddNameSlice (bytes ("dir/a.1.drv")) ⟨3, 2, 1⟩ = bytes ("/a")
    ∧ parse_unix_socket_name_ drvSuffix (bytes ("a.1.drv")) = some ⟨0, 1, 1⟩
    ∧ ddNameSlice (bytes ("a.1.drv")) ⟨0, 1, 1⟩ = bytes ("a")
    ∧ bytes ("/a") ≠ bytes ("a")
    ∧ parse_unix_socket_name_ drvSuffix (bytes ("dir/.1.drv")) = some ⟨3, 1, 1⟩
    ∧ ddNameSlice (bytes ("dir/.1.drv")) ⟨3, 1, 1⟩ = bytes ("/") := by decide

/-- C1: a second `CREATED` event for the identity `(a, 1)` is not fatal: the
bucket scan compares `strncmp(sd->name, dd.driver_name, name_len)` with the
full event-name length, which never matches, so the registry ends up with two
records of the same identity instead of aborting. -/
theorem created_duplicate_appended :
    base_dir_smth_created hash0 drvSuffix [] (bytes ("a.1.drv")) = .ok [(0, [sdA])]
    ∧ base_dir_smth_created hash0 drvSuffix [(0, [sdA])] (bytes ("a.1.drv"))
        = .ok [(0, [sdA, sdA])] := by decide

theorem driverLookup_none_iff {hash : List Nat → Nat} {reg : Registry}
    {drv : List Nat} {slot : Nat} (wf : registryWF hash reg)
    (hdrv : (0 : Nat) ∉ drv) :
    driverLookup hash reg drv slot = none ↔ ¬ registryHasDriver reg drv slot := by
  constructor
  · intro hnone hhas
    obtain ⟨p, hp, sd, hsd, hname, hslot⟩ := hhas
    have hhash := (wf.2 p hp sd hsd).1
    rw [hname, hslot] at hhash
    have hmem : (hash (driverId drv slot), p.2) ∈ reg := by
      rw [hhash]
      simpa using hp
    have hlk : List.lookup (hash (driverId drv slot)) reg = some p.2 :=
      mem_lookup wf.1 hmem
    simp only [driverLookup, hlk, bucketFind] at hnone
    have hex : ∃ x ∈ p.2, (fun sd =>
        sd.name.length == drv.length && strncmpEq sd.name drv drv.length &&
          sd.slot == slot) x = true :=
      ⟨sd, hsd, by simp [hname, hslot, strncmpEq_self]⟩
    have hsome := List.find?_isSome.mpr hex
    rw [hnone] at hsome
    simp at hsome
  · intro hnot
    cases hcase : driverLookup hash reg drv slot with
    | none => rfl
    | some sd =>
        exfalso
        apply hnot
        cases hlk : List.lookup (hash (driverId drv slot)) reg with
        | none =>
            simp only [driverLookup, hlk] at hcase
            cases hcase
        | some bucket =>
            simp only [driverLookup, hlk, bucketFind] at hcase
            have hsd := List.mem_of_find?_eq_some hcase
            have hpred := List.find?_some hcase
            simp only [Bool.and_eq_true, beq_iff_eq] at hpred
            obtain ⟨⟨hlenEq, hcmp⟩, hslotEq⟩ := hpred
            have hmem := lookup_mem hlk
            have h0sd := (wf.2 _ hmem sd hsd).2
            have hnameEq := strncmpEq_eq h0sd hdrv hlenEq hcmp
            exact ⟨(hash (driverId drv slot), bucket), hmem, sd, hsd, hnameEq, hslotEq⟩

/-- C2: `cmd_cmd` rejects with `cmd_invalid` (prints "Invalid command",
writes nothing to any socket) when the `(driver, slot)` identity is absent
from the registry, when the command is absent from the resolved catalog, or
when more arguments than the arity are supplied, and otherwise (argument
count at most the arity) builds the command frame and hands it to the send
path. -/
theorem cmd_dispatch_validation (hash : List Nat → Nat) (reg : Registry)
    (drv : List Nat) (slot : Nat) (c : List Nat) (args : List ArgFromInput)
    (wf : registryWF hash reg) (hdrv : (0 : Nat) ∉ drv) :
    (¬ registryHasDriver reg drv slot → cmd_cmd hash reg drv slot c args = .invalid)
    ∧ (registryHasDriver reg drv slot → ∃ sd, driverLookup hash reg drv slot = some sd)
    ∧ ∀ sd, driverLookup hash reg drv slot = some sd →
        ((catalogFind sd.commands c = none → cmd_cmd hash reg drv slot c args = .invalid)
         ∧ ∀ idx sdc, catalogFind sd.commands c = some (idx, sdc) →
             ((sdc.arity < args.length → cmd_cmd hash reg drv slot c args = .invalid)
              ∧ (args.length ≤ sdc.arity →
                  cmd_cmd hash reg drv slot c args
                    = .sent (buildCommandFrame idx args)))) := by
  refine ⟨?_, ?_, ?_⟩
  · intro hnot
    have hnone := (driverLookup_none_iff wf hdrv).mpr hnot
    simp only [cmd_cmd, hnone]
  · intro hhas
    cases hcase : driverLookup hash reg drv slot with
    | none => exact absurd hhas ((driverLookup_none_iff wf hdrv).mp hcase)
    | some sd => exact ⟨sd, rfl⟩
  · intro sd hsd
    constructor
    · intro hnone
      simp only [cmd_cmd, hsd, hnone]
    · intro idx sdc hfind
      constructor
      · intro hlt
        simp only [cmd_cmd, hsd, hfind, if_pos hlt]
      · intro hle
        simp only [cmd_cmd, hsd, hfind, if_neg (Nat.not_lt.mpr hle)]

/-- C2 witness: a populated one-driver registry where each rejection and the
successful dispatch are exercised through the theorem. -/
theorem cmd_dispatch_validation_witness :
    cmd_cmd hash0 wreg (bytes ("d")) 1 (bytes ("c")) [warg]
      = .sent (buildCommandFrame 0 [warg])
    ∧ cmd_cmd hash0 wreg (bytes ("z")) 1 (bytes ("c")) [warg] = .invalid
    ∧ cmd_cmd hash0 wreg (bytes ("d")) 1 (bytes ("nope")) [warg] = .invalid
    ∧ cmd_cmd hash0 wreg (bytes ("d")) 1 (bytes ("c")) [warg, warg, warg] = .invalid := by
  have hwf : registryWF hash0 wreg := by
    unfold registryWF
    exact ⟨by decide, by decide⟩
  refine ⟨?_, ?_, ?_, ?_⟩
  · exact (((cmd_dispatch_validation hash0 wreg (bytes ("d")) 1 (bytes ("c")) [warg]
      hwf (by decide)).2.2 wdrv (by decide)).2 0 wcmd (by decide)).2 (by decide)
  · exact (cmd_dispatch_validation hash0 wreg (bytes ("z")) 1 (bytes ("c")) [warg]
      hwf (by decide)).1 (by unfold registryHasDriver; decide)
  · exact ((cmd_dispatch_validation hash0 wreg (bytes ("d")) 1 (bytes ("nope")) [warg]
      hwf (by decide)).2.2 wdrv (by decide)).1 (by decide)
  · exact (((cmd_dispatch_validation hash0 wreg (bytes ("d")) 1 (bytes ("c"))
      [warg, warg, warg] hwf (by decide)).2.2 wdrv (by decide)).2 0 wcmd
      (by decide)).1 (by decide)

theorem flatMap_map_arg (args : List ArgFromInput) :
    args.flatMap (fun a => a.arg.length :: a.arg)
      = (args.map (fun a => a.arg)).flatMap (fun a => a.length :: a) := by
  induction args with
  | nil => rfl
  | cons a t ih => simp only [List.flatMap_cons, List.map_cons, ih]

theorem argsFlat_canonical {args : List ArgFromInput}
    (h : ∀ a ∈ args, a.len = a.arg.length ∧ a.arg.length ≤ 255) :
    args.flatMap (fun a => (a.len % 256) :: a.arg.take a.len)
      = args.flatMap (fun a => a.arg.length :: a.arg) := by
  induction args with
  | nil => rfl
  | cons a t ih =>
      have ha := h a (List.mem_cons_self a t)
      simp only [List.flatMap_cons]
      rw [ih (fun x hx => h x (List.mem_cons_of_mem a hx))]
      have hlen : a.len % 256 = a.arg.length := by
        rw [ha.1]
        exact Nat.mod_eq_of_lt (by omega)
      rw [hlen, ha.1, List.take_length]

theorem parseArgsFrame_canonical (l : List (List Nat)) :
    parseArgsFrame l.length (l.flatMap (fun a => a.length :: a)) = some l := by
  induction l with
  | nil => rfl
  | cons a t ih =>
      simp only [List.length_cons, List.flatMap_cons, List.cons_append]
      rw [parseArgsFrame]
      rw [if_neg (by simp)]
      rw [List.take_left, List.drop_left, ih]
      rfl

/-- C3: a validly dispatched command at catalog index `idx` with arguments of
at most 255 bytes serialises into the frame
`DRV_COMMAND | cmd_idx : u16 | argc : u8 | (len : u8, bytes) × argc`, handed
to the send path, and parsing that frame back yields the same
`(cmd_idx, args)`. -/
theorem cmd_frame_layout_roundtrip (hash : List Nat → Nat) (reg : Registry)
    (drv : List Nat) (slot : Nat) (c : List Nat) (args : List ArgFromInput)
    (sd : ShellDriver) (idx : Nat) (sdc : ShellDriverCmd)
    (hargs : ∀ a ∈ args, a.len = a.arg.length ∧ a.arg.length ≤ 255)
    (hac : args.length ≤ 255) (hidx : idx < 65536)
    (h1 : driverLookup hash reg drv slot = some sd)
    (h2 : catalogFind sd.commands c = some (idx, sdc))
    (h3 : args.length ≤ sdc.arity) :
    cmd_cmd hash reg drv slot c args = .sent (buildCommandFrame idx args)
    ∧ buildCommandFrame idx args
        = PR_DRV_COMMAND :: (idx % 256) :: (idx / 256 % 256) :: args.length ::
            args.flatMap (fun a => a.arg.length :: a.arg)
    ∧ parseCommandFrame (buildCommandFrame idx args)
        = some (idx, args.map (fun a => a.arg)) := by
  have hflat := argsFlat_canonical hargs
  have hlayout : buildCommandFrame idx args
      = PR_DRV_COMMAND :: (idx % 256) :: (idx / 256 % 256) :: args.length ::
          args.flatMap (fun a => a.arg.length :: a.arg) := by
    rw [buildCommandFrame, hflat, Nat.mod_eq_of_lt (by omega : args.length < 256)]
  refine ⟨?_, hlayout, ?_⟩
  · simp only [cmd_cmd, h1, h2, if_neg (Nat.not_lt.mpr h3)]
  · rw [hlayout]
    simp only [parseCommandFrame, if_pos rfl]
    rw [flatMap_map_arg]
    rw [show args.length = (args.map (fun a => a.arg)).length from (List.length_map args _).symm]
    rw [parseArgsFrame_canonical]
    have hval : idx % 256 + 256 * (idx / 256 % 256) = idx := by omega
    simp [hval]

/-- C3 witness: the frame built for `cmd d 1 c hi` on the one-driver registry
round-trips through the parser. -/
theorem cmd_frame_layout_roundtrip_witness :
    cmd_cmd hash0 wreg (bytes ("d")) 1 (bytes ("c")) [warg]
      = .sent (buildCommandFrame 0 [warg])
    ∧ buildCommandFrame 0 [warg]
        = PR_DRV_COMMAND :: (0 % 256) :: (0 / 256 % 256) :: ([warg] : List ArgFromInput).length ::
            ([warg] : List ArgFromInput).flatMap (fun a => a.arg.length :: a.arg)
    ∧ parseCommandFrame (buildCommandFrame 0 [warg])
        = some (0, ([warg] : List ArgFromInput).map (fun a => a.arg)) :=
  cmd_frame_layout_roundtrip hash0 wreg (bytes ("d")) 1 (bytes ("c")) [warg]
    wdrv 0 wcmd (by decide) (by decide) (by decide) (by decide) (by decide) (by decide)

/-- C6 counterexample: a read that completes with `usc->eof` set (peer EOF,
`error = 0`) makes the handler log and return without any reconnect attempt —
not the `Reconnecting` transition the claim states for EOF. -/
theorem reader_eof_no_reconnect_cex :
    reader_signature 0 true PR_DRV_RESPONSE = .gate .eofWait
    ∧ SigAction.gate .eofWait ≠ .gate .reconnect
    ∧ SigAction.gate .eofWait ≠ .badSigReconnect := by decide

/-- C6 amended: a nonzero receive error triggers a reconnect attempt, and so
does an invalid signature byte; peer EOF does not — the handler returns and
waits for the expected `DELETED` event. -/
theorem read_failure_reconnect_amended (error : Nat) (eof : Bool) (sig : Nat) :
    (error ≠ 0 → reader_signature error eof sig = .gate .reconnect)
    ∧ (eof = true → reader_signature 0 eof sig = .gate .eofWait)
    ∧ (sig ≠ PR_DRV_INFO → sig ≠ PR_DRV_RESPONSE →
        reader_signature 0 false sig = .badSigReconnect) := by
  refine ⟨?_, ?_, ?_⟩
  · intro he
    simp [reader_signature, read_error_handler, he]
  · intro heof
    subst heof
    simp [reader_signature, read_error_handler]
  · intro h1 h2
    simp [reader_signature, read_error_handler, h1, h2]

/-- C6 witness: the three amended branches evaluated at concrete inputs. -/
theorem read_failure_reconnect_amended_witness :
    reader_signature 5 false 9 = .gate .reconnect
    ∧ reader_signature 0 true 9 = .gate .eofWait
    ∧ reader_signature 0 false 9 = .badSigReconnect :=
  ⟨(read_failure_reconnect_amended 5 false 9).1 (by decide),
   (read_failure_reconnect_amended 0 true 9).2.1 rfl,
   (read_failure_reconnect_amended 0 false 9).2.2 (by decide) (by decide)⟩

/-- C7 counterexample: a complete `DRV_RESPONSE` frame with length 3 and
payload `a NUL b` is printed as `a` (the `"%.*s"` format stops at the NUL),
newline and prompt — not the three payload bytes verbatim. -/
theorem response_nul_truncation_cex :
    reader_response 0 false (PR_DRV_RESPONSE :: u32le 3 ++ [97, 0, 98])
      = .printed (bytes ("a\n> "))
    ∧ bytes ("a\n> ") ≠ [97, 0, 98] ++ bytes ("\n") ++ PROMPT := by decide

/-- C7 amended: for a completely received response frame with length `L` and
payload `p`, the shell prints the longest NUL-free prefix of the first `L`
payload bytes, a newline and the prompt; in particular the payload is printed
verbatim whenever it contains no NUL byte. -/
theorem response_print_amended (L : Nat) (p : List Nat)
    (hL : L < 2 ^ 31) (hp : p.length = L) :
    reader_response 0 false (PR_DRV_RESPONSE :: u32le L ++ p)
      = .printed ((cstr p).take L ++ bytes ("\n") ++ PROMPT)
    ∧ ((0 : Nat) ∉ p →
        reader_response 0 false (PR_DRV_RESPONSE :: u32le L ++ p)
          = .printed (p ++ bytes ("\n") ++ PROMPT)) := by
  have hlen32 : readU32LE ((PR_DRV_RESPONSE :: u32le L ++ p).drop 1) = L := by
    simp only [u32le, List.cons_append, List.drop_succ_cons, List.drop_zero, readU32LE]
    omega
  have hblen : (PR_DRV_RESPONSE :: u32le L ++ p).length = 5 + L := by
    simp [u32le, hp]
    omega
  have hdrop5 : (PR_DRV_RESPONSE :: u32le L ++ p).drop 5 = p := by
    simp [u32le]
  have hmain : reader_response 0 false (PR_DRV_RESPONSE :: u32le L ++ p)
      = .printed ((cstr p).take L ++ bytes ("\n") ++ PROMPT) := by
    simp only [reader_response, read_error_handler]
    rw [if_neg (by omega)]
    simp only [if_neg (by omega : ¬ (0 : Nat) ≠ 0), Bool.false_eq_true, if_false]
    rw [hlen32, hblen, hdrop5]
    rw [if_neg (by omega)]
    simp only [dotStarOut, if_pos hL, finish_cmd_output]
  refine ⟨hmain, ?_⟩
  · intro h0
    rw [hmain, cstr_eq_self h0, ← hp, List.take_length]

/-- C7 witness: the amended statement evaluated on the NUL-free payload
`ok`. -/
theorem response_print_amended_witness :
    reader_response 0 false (PR_DRV_RESPONSE :: u32le 2 ++ bytes ("ok"))
      = .printed (bytes ("ok") ++ bytes ("\n") ++ PROMPT) :=
  (response_print_amended 2 (bytes ("ok")) (by decide) (by decide)).2 (by decide)

/-- C8 counterexample: the completion path in which a dispatched command ends
with a read error (the `READ_ERROR_HANDLER` reconnect path) writes nothing to
the output channel, so the command is left without a trailing prompt. -/
theorem completion_no_prompt_cex :
    completionOutput .readError = [] ∧ ¬ List.IsSuffix PROMPT ([] : List Nat) := by
  constructor
  · rfl
  · intro h
    have := h.length_le
    simp [PROMPT, bytes] at this

/-- C8 amended: `list`, `help`, rejected input, an arrived response, and a
write error whose reconnect succeeds all end with the prompt on the output
channel; a write error whose reconnect fails, a read error, peer EOF and an
invalid signature byte write nothing at all, leaving the command without a
prompt. -/
theorem prompt_discipline_amended (reg : Registry) (L : Nat) (p : List Nat)
    (sig : Nat) :
    List.IsSuffix PROMPT (completionOutput (.immediateList reg))
    ∧ List.IsSuffix PROMPT (completionOutput .immediateHelp)
    ∧ List.IsSuffix PROMPT (completionOutput .rejectedInput)
    ∧ List.IsSuffix PROMPT (completionOutput (.responseArrived L p))
    ∧ List.IsSuffix PROMPT (completionOutput (.writeError true))
    ∧ completionOutput (.writeError false) = []
    ∧ completionOutput .readError = []
    ∧ completionOutput .readEof = []
    ∧ completionOutput (.invalidSignature sig) = [] := by
  refine ⟨⟨listOutput reg, rfl⟩, ⟨HELP_MSG, rfl⟩, ⟨INVALID_MSG, rfl⟩,
    ⟨dotStarOut L p ++ bytes ("\n"), ?_⟩, ⟨[], by decide⟩, by decide, rfl, rfl, rfl⟩
  simp [completionOutput, finish_cmd_output]

theorem collectArgs_of_long {args : List (List Nat)}
    (h : ∃ a ∈ args, 256 ≤ a.length) : collectArgs args = none := by
  induction args with
  | nil => simp at h
  | cons t rest ih =>
      simp only [collectArgs]
      by_cases ht : t.length > 255
      · rw [if_pos ht]
      · rw [if_neg ht]
        obtain ⟨a, ha, hlen⟩ := h
        rcases List.mem_cons.mp ha with rfl | hmem
        · exact absurd hlen (by omega)
        · rw [ih ⟨a, hmem, hlen⟩]
          rfl

theorem collectArgs_of_short {args : List (List Nat)}
    (h : ∀ a ∈ args, a.length ≤ 255) :
    collectArgs args = some (args.map (fun t => (⟨t, t.length⟩ : ArgFromInput))) := by
  induction args with
  | nil => rfl
  | cons t rest ih =>
      have ht := h t (List.mem_cons_self t rest)
      simp only [collectArgs, if_neg (by omega : ¬ t.length > 255)]
      rw [ih (fun a ha => h a (List.mem_cons_of_mem t ha))]
      rfl

/-- C9: on a `cmd` line whose verb, driver, slot and command tokens are in
place, an argument token of 256 bytes or more makes the shell print
"Invalid command" and abandon the line, while argument tokens of at most 255
bytes (in particular exactly 255) let the line proceed to the `cmd_cmd`
dispatch with those arguments. -/
theorem run_command_arg_boundary (line drv slotTok dcmd : List Nat)
    (args : List (List Nat)) (n : Nat)
    (htok : tokenize (line.takeWhile (fun c => c != 0))
      = bytes ("cmd") :: drv :: slotTok :: dcmd :: args)
    (hslot : parseSlotTok slotTok = some n) :
    ((∃ a ∈ args, 256 ≤ a.length) → run_command_from_input line = .invalid)
    ∧ ((∀ a ∈ args, a.length ≤ 255) →
        run_command_from_input line
          = .dispatch drv n dcmd (args.map (fun t => (⟨t, t.length⟩ : ArgFromInput)))) := by
  constructor
  · intro hlong
    simp only [run_command_from_input, htok, run_command_tokens,
      if_neg (by decide : ¬ bytes ("cmd") = bytes ("list")),
      if_neg (by decide : ¬ bytes ("cmd") = bytes ("help")),
      if_pos (rfl : bytes ("cmd") = bytes ("cmd")), hslot,
      collectArgs_of_long hlong]
    simp
  · intro hshort
    simp only [run_command_from_input, htok, run_command_tokens,
      if_neg (by decide : ¬ bytes ("cmd") = bytes ("list")),
      if_neg (by decide : ¬ bytes ("cmd") = bytes ("help")),
      if_pos (rfl : bytes ("cmd") = bytes ("cmd")), hslot,
      collectArgs_of_short hshort]
    simp

set_option maxRecDepth 100000 in
/-- C9 witness: a 255-byte argument dispatches, a 256-byte argument is
rejected. -/
theorem run_command_arg_boundary_witness :
    run_command_from_input (bytes ("cmd d 1 c ") ++ longA)
      = .dispatch (bytes ("d")) 1 (bytes ("c"))
          ([longA].map (fun t => (⟨t, t.length⟩ : ArgFromInput)))
    ∧ run_command_from_input (bytes ("cmd d 1 c ") ++ longB) = .invalid := by
  constructor
  · exact (run_command_arg_boundary (bytes ("cmd d 1 c ") ++ longA) (bytes ("d"))
      (bytes ("1")) (bytes ("c")) [longA] 1 (by decide) (by decide)).2 (by decide)
  · exact (run_command_arg_boundary (bytes ("cmd d 1 c ") ++ longB) (bytes ("d"))
      (bytes ("1")) (bytes ("c")) [longB] 1 (by decide) (by decide)).1
      ⟨longB, List.mem_cons_self longB [], by decide⟩

theorem tokenize_all_space {l : List Nat} (h : ∀ c ∈ l, c = 32) :
    tokenize l = [] := by
  induction l with
  | nil => rfl
  | cons c rest ih =>
      have hc : c = 32 := h c (List.mem_cons_self c rest)
      subst hc
      show tokenizeAux [] (32 :: rest) = []
      rw [tokenizeAux, if_pos rfl]
      exact ih (fun x hx => h x (List.mem_cons_of_mem _ hx))

/-- C10: a complete input line holding no tokens (empty, or spaces only) is
treated as a malformed command: the shell prints "Invalid command" followed by
the prompt, and the reactor keeps running — `on_input` stops it only when the
input stream reports zero pending bytes (EOF). -/
theorem blank_line_invalid (line : List Nat) (h : ∀ c ∈ line, c = 32) :
    run_command_from_input line = .invalid
    ∧ cmd_invalid_output = INVALID_MSG ++ PROMPT
    ∧ on_input_stops 0 = true
    ∧ (∀ pending, pending ≠ 0 → on_input_stops pending = false) := by
  refine ⟨?_, rfl, rfl, fun pending hp => by simp [on_input_stops, hp]⟩
  have hA : line.takeWhile (fun c => c != 0) = line :=
    takeWhile_all (fun c hc => by rw [h c hc]; decide)
  rw [run_command_from_input, hA, tokenize_all_space h]
  rfl

/-- C10 witness: the spaces-only line and the empty line evaluated through the
theorem. -/
theorem blank_line_invalid_witness :
    run_command_from_input (bytes ("  ")) = .invalid
    ∧ run_command_from_input ([] : List Nat) = .invalid :=
  ⟨(blank_line_invalid (bytes ("  ")) (by decide)).1,
   (blank_line_invalid ([] : List Nat) (by simp)).1⟩
